import Mathlib

/-!
Verification development for the git-appraise repository layer.

The Go code shells out to the `git` command-line tool.  We embed the
repository state that those commands manipulate as a `GitState`:
an association list of refs (ref name ↦ commit hash) and an association
list of commit objects (hash ↦ parents/tree/message).  Each helper of the
Go `repository` package (`GetCommitHash`, `HasRef`, `IsAncestor`,
`update-ref`, `commit-tree`, …) becomes a function on `GitState`.
Commit creation (`git commit-tree`) is content addressed in git; we model
the produced hash as an explicit `fresh` argument.
-/

/-- A commit object: parent hashes (in order), tree hash, and message. -/
structure Commit where
  parents : List String
  tree : String
  message : String
  deriving DecidableEq

/-- The repository state visible to the `repository` package: refs and the
commit object store. -/
structure GitState where
  refs : List (String × String)
  objects : List (String × Commit)
  deriving DecidableEq

/-- Set a ref in an association list, replacing an existing binding. -/
def setAssoc (l : List (String × String)) (k v : String) : List (String × String) :=
  match l with
  | [] => [(k, v)]
  | (k', v') :: t => if k' = k then (k, v) :: t else (k', v') :: setAssoc t k v

/-- Go `HasRef` (`git show-ref --verify --quiet`). -/
def hasRef (s : GitState) (ref : String) : Bool :=
  (s.refs.lookup ref).isSome

/-- Go `GetCommitHash` (`git show -s --format=%H <ref>`): resolve a ref to the
commit hash it points to; fails when the ref does not exist. -/
def getCommitHash (s : GitState) (ref : String) : Except String String :=
  match s.refs.lookup ref with
  | some h => .ok h
  | none => .error ("unknown ref " ++ ref)

/-- Go `GetCommitDetails` (`git show -s --format=…`): commit metadata of the
commit a ref points to. -/
def getCommitDetails (s : GitState) (ref : String) : Except String Commit :=
  match getCommitHash s ref with
  | .error e => .error e
  | .ok h =>
    match s.objects.lookup h with
    | some c => .ok c
    | none => .error ("unknown object " ++ h)

/-- Fuel-bounded reachability along parent links in the object store:
`reachable objs fuel a b` holds when commit `a` is reachable from commit `b`
(i.e. `a` is an ancestor of `b`, inclusively). -/
def reachable (objs : List (String × Commit)) : Nat → String → String → Bool
  | 0, a, b => a == b
  | fuel + 1, a, b =>
    a == b ||
      (match objs.lookup b with
       | some c => c.parents.any (fun p => reachable objs fuel a p)
       | none => false)

/-- Go `IsAncestor` (`git merge-base --is-ancestor a b`): `a` is an ancestor of
`b`.  On acyclic stores a fuel of `objs.length` explores every parent chain. -/
def isAncestor (s : GitState) (a b : String) : Bool :=
  reachable s.objects s.objects.length a b

/-- Go `git commit-tree …`: create a commit object and return the new state and
the new commit's hash (content addressing is modelled by the explicit `fresh`
hash supplied by the caller). -/
def commitTree (s : GitState) (fresh : String) (parents : List String)
    (tree message : String) : GitState × String :=
  ({ s with objects := (fresh, ⟨parents, tree, message⟩) :: s.objects }, fresh)

/-- Go `git update-ref <ref> <new> [<old>]`: unconditional update when no old
value is supplied, compare-and-swap against the current value otherwise. -/
def updateRef (s : GitState) (ref newHash : String) (old : Option String) :
    Except String GitState :=
  match old with
  | none => .ok { s with refs := setAssoc s.refs ref newHash }
  | some o =>
    if s.refs.lookup ref = some o then
      .ok { s with refs := setAssoc s.refs ref newHash }
    else
      .error ("update-ref CAS failure on " ++ ref)

/-- Go `mergeArchives` (repository/git.go): merge a remote archive ref into the
local archive ref. -/
def mergeArchives (s : GitState) (fresh archive remoteArchive : String) :
    Except String GitState :=
  if hasRef s remoteArchive = false then
    -- The remote archive does not exist, so we have nothing to do
    .ok s
  else
    match getCommitHash s remoteArchive with
    | .error e => .error e
    | .ok remoteHash =>
      if hasRef s archive = false then
        -- The local archive does not exist, so we merely need to set it
        updateRef s archive remoteHash none
      else
        match getCommitHash s archive with
        | .error e => .error e
        | .ok archiveHash =>
          if isAncestor s archiveHash remoteHash then
            -- The archive can simply be fast-forwarded
            updateRef s archive remoteHash (some archiveHash)
          else
            -- Create a merge commit of the two archives
            match getCommitDetails s remoteArchive with
            | .error e => .error e
            | .ok refDetails =>
              let p := commitTree s fresh [remoteHash, archiveHash]
                refDetails.tree "Merge local and remote archives"
              updateRef p.1 archive p.2 (some archiveHash)

/-- Go `ArchiveRef` (repository/git.go): graft the commit pointed to by `ref`
under the archive ref `archive`. -/
def ArchiveRef (s : GitState) (fresh ref archive : String) :
    Except String GitState :=
  match getCommitHash s ref with
  | .error e => .error e
  | .ok refHash =>
    match getCommitDetails s ref with
    | .error e => .error e
    | .ok refDetails =>
      match getCommitHash s archive with
      | .error _ =>
        -- the archive ref does not resolve: create it with a single parent
        let p := commitTree s fresh [refHash] refDetails.tree
          ("Archive " ++ refHash)
        updateRef p.1 archive p.2 none
      | .ok archiveHash =>
        if isAncestor s refHash archiveHash then
          -- The ref has already been archived, so we have nothing to do
          .ok s
        else
          let p := commitTree s fresh [archiveHash, refHash] refDetails.tree
            ("Archive " ++ refHash)
          updateRef p.1 archive p.2
            (if archiveHash == "" then none else some archiveHash)

theorem reachable_self (objs : List (String × Commit)) (fuel : Nat) (a : String) :
    reachable objs fuel a a = true := by
  cases fuel <;> simp [reachable]

theorem reachable_parent (objs : List (String × Commit)) (fuel : Nat)
    (a b : String) (c : Commit) (hb : objs.lookup b = some c)
    (ha : a ∈ c.parents) : reachable objs (fuel + 1) a b = true := by
  simp only [reachable, hb, Bool.or_eq_true, beq_iff_eq, List.any_eq_true]
  exact Or.inr ⟨a, ha, reachable_self objs fuel a⟩

theorem lookup_setAssoc_self (l : List (String × String)) (k v : String) :
    (setAssoc l k v).lookup k = some v := by
  induction l with
  | nil => simp [setAssoc, List.lookup]
  | cons h t ih =>
    obtain ⟨k', v'⟩ := h
    by_cases hk : k' = k
    · simp [setAssoc, hk, List.lookup]
    · simp only [setAssoc, if_neg hk, List.lookup]
      have : (k == k') = false := by
        simp [beq_eq_false_iff_ne]
        exact fun h => hk h.symm
      simp [this, ih]

theorem getCommitHash_ok_iff (s : GitState) (r h : String) :
    getCommitHash s r = .ok h ↔ s.refs.lookup r = some h := by
  unfold getCommitHash
  cases hl : s.refs.lookup r <;> simp

theorem getCommitHash_err (s : GitState) (r : String) (hl : s.refs.lookup r = none) :
    getCommitHash s r = .error ("unknown ref " ++ r) := by
  unfold getCommitHash
  rw [hl]

theorem isAncestor_cons_parent (refs : List (String × String))
    (objs : List (String × Commit)) (fresh : String) (parents : List String)
    (tree msg : String) (a : String) (ha : a ∈ parents) :
    isAncestor ⟨refs, (fresh, ⟨parents, tree, msg⟩) :: objs⟩ a fresh = true := by
  unfold isAncestor
  simp only [List.length_cons]
  exact reachable_parent _ _ _ _ ⟨parents, tree, msg⟩ (by simp [List.lookup]) ha

/-- Claim C3: if `ArchiveRef(ref, archive)` completes without error, the commit
that `ref` pointed to beforehand is an ancestor of the commit `archive` points
to afterwards (spec property P6). -/
theorem archiveRef_reachability (s : GitState) (fresh ref archive : String)
    (s' : GitState) (refHash : String)
    (href : s.refs.lookup ref = some refHash)
    (hok : ArchiveRef s fresh ref archive = .ok s') :
    ∃ aH, s'.refs.lookup archive = some aH ∧ isAncestor s' refHash aH = true := by
  have hch : getCommitHash s ref = .ok refHash := (getCommitHash_ok_iff s ref refHash).mpr href
  cases hdet : getCommitDetails s ref with
  | error e =>
    simp only [ArchiveRef, hch, hdet] at hok
    exact absurd hok (by simp)
  | ok det =>
    cases harch : getCommitHash s archive with
    | error e =>
      simp only [ArchiveRef, hch, hdet, harch, commitTree, updateRef,
        Except.ok.injEq] at hok
      subst hok
      exact ⟨fresh, lookup_setAssoc_self _ _ _,
        isAncestor_cons_parent _ _ _ _ _ _ _ (by simp)⟩
    | ok aH =>
      have hlarch : s.refs.lookup archive = some aH :=
        (getCommitHash_ok_iff s archive aH).mp harch
      by_cases hanc : isAncestor s refHash aH = true
      · simp only [ArchiveRef, hch, hdet, harch, hanc, if_true,
          Except.ok.injEq] at hok
        subst hok
        exact ⟨aH, hlarch, hanc⟩
      · by_cases hempty : (aH == "") = true
        · simp [ArchiveRef, hch, hdet, harch, hanc, hempty, commitTree,
            updateRef, hlarch] at hok
          subst hok
          exact ⟨fresh, lookup_setAssoc_self _ _ _,
            isAncestor_cons_parent _ _ _ _ _ _ _ (by simp)⟩
        · simp [ArchiveRef, hch, hdet, harch, hanc, hempty, commitTree,
            updateRef, hlarch] at hok
          subst hok
          exact ⟨fresh, lookup_setAssoc_self _ _ _,
            isAncestor_cons_parent _ _ _ _ _ _ _ (by simp)⟩

/-- Concrete state for the C3 witness: one branch ref pointing at commit c1,
no archive ref yet. -/
def archiveWitnessState : GitState :=
  ⟨[("refs/heads/change", "c1")], [("c1", ⟨[], "t1", "initial"⟩)]⟩

/-- Witness for C3 at a concrete input. -/
theorem archiveRef_reachability_witness :
    ∃ aH, (GitState.refs
        ⟨[("refs/heads/change", "c1"), ("refs/devtools/archives/reviews", "c2")],
         [("c2", ⟨["c1"], "t1", "Archive c1"⟩), ("c1", ⟨[], "t1", "initial"⟩)]⟩).lookup
        "refs/devtools/archives/reviews" = some aH ∧
      isAncestor
        ⟨[("refs/heads/change", "c1"), ("refs/devtools/archives/reviews", "c2")],
         [("c2", ⟨["c1"], "t1", "Archive c1"⟩), ("c1", ⟨[], "t1", "initial"⟩)]⟩
        "c1" aH = true :=
  archiveRef_reachability archiveWitnessState "c2" "refs/heads/change"
    "refs/devtools/archives/reviews" _ "c1" rfl rfl

/-- Claim C4: `ArchiveRef` follows exactly the three-way case analysis of the
spec: create the archive with a single parent when it does not exist, do
nothing when `tip(ref)` is already an ancestor of `tip(archive)`, and
otherwise append a commit with parents `[tip(archive), tip(ref)]`, the tree of
`tip(ref)` and message `Archive <hash>`, updating the archive ref from its
known old value. -/
theorem archiveRef_cases (s : GitState) (fresh ref archive : String)
    (refHash : String) (det : Commit)
    (href : s.refs.lookup ref = some refHash)
    (hdet : s.objects.lookup refHash = some det)
    (hwf : s.refs.lookup archive ≠ some "") :
    (s.refs.lookup archive = none →
      ArchiveRef s fresh ref archive =
        .ok ⟨setAssoc s.refs archive fresh,
             (fresh, ⟨[refHash], det.tree, "Archive " ++ refHash⟩) :: s.objects⟩) ∧
    (∀ aH, s.refs.lookup archive = some aH → isAncestor s refHash aH = true →
      ArchiveRef s fresh ref archive = .ok s) ∧
    (∀ aH, s.refs.lookup archive = some aH → isAncestor s refHash aH = false →
      ArchiveRef s fresh ref archive =
        .ok ⟨setAssoc s.refs archive fresh,
             (fresh, ⟨[aH, refHash], det.tree, "Archive " ++ refHash⟩) :: s.objects⟩) := by
  have hch : getCommitHash s ref = .ok refHash := (getCommitHash_ok_iff s ref refHash).mpr href
  have hcd : getCommitDetails s ref = .ok det := by
    simp only [getCommitDetails, hch, hdet]
  refine ⟨?_, ?_, ?_⟩
  · intro hnone
    simp [ArchiveRef, hch, hcd, getCommitHash_err s archive hnone, commitTree,
      updateRef]
  · intro aH hsome hanc
    have harch : getCommitHash s archive = .ok aH :=
      (getCommitHash_ok_iff s archive aH).mpr hsome
    simp [ArchiveRef, hch, hcd, harch, hanc]
  · intro aH hsome hanc
    have harch : getCommitHash s archive = .ok aH :=
      (getCommitHash_ok_iff s archive aH).mpr hsome
    have hne : (aH == "") = false := by
      rw [beq_eq_false_iff_ne]
      intro h
      exact hwf (h ▸ hsome)
    simp [ArchiveRef, hch, hcd, harch, hanc, hne, commitTree, updateRef, hsome]

/-- Concrete state for the C4 witness: the commit of the ref is already
reachable from the archive ref. -/
def archivedState : GitState :=
  ⟨[("refs/heads/change", "c1"), ("refs/devtools/archives/reviews", "a1")],
   [("c1", ⟨[], "t1", "initial"⟩), ("a1", ⟨["c1"], "t1", "Archive c1"⟩)]⟩

/-- Witness for C4: the no-op case at a concrete input where the ref is
already archived. -/
theorem archiveRef_cases_witness :
    ArchiveRef archivedState "c2" "refs/heads/change"
      "refs/devtools/archives/reviews" = .ok archivedState :=
  (archiveRef_cases archivedState "c2" "refs/heads/change"
      "refs/devtools/archives/reviews" "c1" ⟨[], "t1", "initial"⟩ rfl rfl
      (by decide)).2.1 "a1" rfl (by decide)

/-- Concrete state refuting the no-op case of claim C1: the remote archive tip
`r1` is a proper ancestor of the local archive tip `l1`. -/
def remoteBehindState : GitState :=
  ⟨[("refs/devtools/archives/reviews", "l1"),
    ("refs/remoteDevtools/origin/archives/reviews", "r1")],
   [("r1", ⟨[], "t0", "base"⟩), ("l1", ⟨["r1"], "t0", "local"⟩)]⟩

/-- The state `mergeArchives` actually produces on `remoteBehindState`: a
merge commit is created even though the remote tip is already an ancestor of
the local tip. -/
def remoteBehindStateMerged : GitState :=
  ⟨[("refs/devtools/archives/reviews", "m1"),
    ("refs/remoteDevtools/origin/archives/reviews", "r1")],
   [("m1", ⟨["r1", "l1"], "t0", "Merge local and remote archives"⟩),
    ("r1", ⟨[], "t0", "base"⟩), ("l1", ⟨["r1"], "t0", "local"⟩)]⟩

/-- Counterexample to claim C1: the claim's second case says that when the
remote archive tip is an ancestor of the local archive tip, nothing changes.
In the code this situation falls into the merge-commit branch instead: the
local archive ref is moved to a fresh two-parent merge commit. -/
theorem mergeArchives_remote_ancestor_not_noop :
    isAncestor remoteBehindState "r1" "l1" = true ∧
    mergeArchives remoteBehindState "m1" "refs/devtools/archives/reviews"
        "refs/remoteDevtools/origin/archives/reviews" =
      .ok remoteBehindStateMerged ∧
    remoteBehindStateMerged ≠ remoteBehindState :=
  ⟨rfl, rfl, by decide⟩

/-- Claim C1 (amended): `mergeArchives` follows a three-way case analysis.
If the remote archive ref does not exist, nothing happens; if the local
archive ref does not exist, it is created at the remote tip; if the local tip
is an ancestor of the remote tip, the local ref is fast-forwarded to the
remote tip; otherwise — including when the remote tip is a proper ancestor of
the local tip — a two-parent merge commit of `[remote tip, local tip]` with
the remote tip's tree is created and the local archive ref is updated to it.
(The claim's separate "remote is ancestor → no-op" case does not exist in the
code.) -/
theorem mergeArchives_cases (s : GitState) (fresh archive remoteArchive : String) :
    (s.refs.lookup remoteArchive = none →
      mergeArchives s fresh archive remoteArchive = .ok s) ∧
    (∀ rH, s.refs.lookup remoteArchive = some rH → s.refs.lookup archive = none →
      mergeArchives s fresh archive remoteArchive =
        .ok ⟨setAssoc s.refs archive rH, s.objects⟩) ∧
    (∀ rH aH, s.refs.lookup remoteArchive = some rH →
      s.refs.lookup archive = some aH → isAncestor s aH rH = true →
      mergeArchives s fresh archive remoteArchive =
        .ok ⟨setAssoc s.refs archive rH, s.objects⟩) ∧
    (∀ rH aH det, s.refs.lookup remoteArchive = some rH →
      s.refs.lookup archive = some aH → isAncestor s aH rH = false →
      s.objects.lookup rH = some det →
      mergeArchives s fresh archive remoteArchive =
        .ok ⟨setAssoc s.refs archive fresh,
             (fresh, ⟨[rH, aH], det.tree, "Merge local and remote archives"⟩)
               :: s.objects⟩) := by
  refine ⟨?_, ?_, ?_, ?_⟩
  · intro hnone
    simp [mergeArchives, hasRef, hnone]
  · intro rH hremote hnone
    have hch : getCommitHash s remoteArchive = .ok rH :=
      (getCommitHash_ok_iff s remoteArchive rH).mpr hremote
    simp [mergeArchives, hasRef, hremote, hnone, hch, updateRef]
  · intro rH aH hremote hlocal hanc
    have hch : getCommitHash s remoteArchive = .ok rH :=
      (getCommitHash_ok_iff s remoteArchive rH).mpr hremote
    have hca : getCommitHash s archive = .ok aH :=
      (getCommitHash_ok_iff s archive aH).mpr hlocal
    simp [mergeArchives, hasRef, hremote, hlocal, hch, hca, hanc, updateRef]
  · intro rH aH det hremote hlocal hanc hdet
    have hch : getCommitHash s remoteArchive = .ok rH :=
      (getCommitHash_ok_iff s remoteArchive rH).mpr hremote
    have hca : getCommitHash s archive = .ok aH :=
      (getCommitHash_ok_iff s archive aH).mpr hlocal
    have hcd : getCommitDetails s remoteArchive = .ok det := by
      simp only [getCommitDetails, hch, hdet]
    simp [mergeArchives, hasRef, hremote, hlocal, hch, hca, hanc, hcd,
      commitTree, updateRef]

/-- Witness for C1 (amended) at a concrete input: the fast-create case. -/
theorem mergeArchives_cases_witness :
    mergeArchives
      ⟨[("refs/remoteDevtools/origin/archives/reviews", "r1")],
       [("r1", ⟨[], "t0", "base"⟩)]⟩
      "m1" "refs/devtools/archives/reviews"
      "refs/remoteDevtools/origin/archives/reviews" =
      .ok ⟨setAssoc [("refs/remoteDevtools/origin/archives/reviews", "r1")]
             "refs/devtools/archives/reviews" "r1",
           [("r1", ⟨[], "t0", "base"⟩)]⟩ :=
  (mergeArchives_cases
      ⟨[("refs/remoteDevtools/origin/archives/reviews", "r1")],
       [("r1", ⟨[], "t0", "base"⟩)]⟩
      "m1" "refs/devtools/archives/reviews"
      "refs/remoteDevtools/origin/archives/reviews").2.1 "r1" rfl rfl

/-- One invocation of `git update-ref` as issued by Go `SetRef`: the ref, the
new hash, and the expected old value (absent when `previousCommitHash` is
empty). -/
structure RefUpdateAttempt where
  ref : String
  newHash : String
  expectedOld : Option String
  deriving DecidableEq

/-- Go `SetRef` (repository/git.go): build the single `update-ref` command and
run it.  The second component records the `update-ref` invocations actually
issued (exactly one; the function contains no retry loop). -/
def SetRef (s : GitState) (ref newCommitHash previousCommitHash : String) :
    Except String GitState × List RefUpdateAttempt :=
  let old : Option String :=
    if previousCommitHash == "" then none else some previousCommitHash
  (updateRef s ref newCommitHash old, [⟨ref, newCommitHash, old⟩])

/-- Concrete state for the C8 counterexample: the ref now points at `b`, but
the caller still expects the stale value `a`. -/
def staleCasState : GitState := ⟨[("refs/notes/devtools/reviews", "b")], []⟩

/-- Counterexample to claim C8: on a compare-and-swap failure `SetRef` issues
exactly one `update-ref` invocation and surfaces the failure immediately;
there is no second attempt after re-reading the old hash. -/
theorem setRef_no_retry_counterexample :
    (SetRef staleCasState "refs/notes/devtools/reviews" "n" "a").1 =
      .error ("update-ref CAS failure on " ++ "refs/notes/devtools/reviews") ∧
    (SetRef staleCasState "refs/notes/devtools/reviews" "n" "a").2 =
      [⟨"refs/notes/devtools/reviews", "n", some "a"⟩] :=
  ⟨rfl, rfl⟩

/-- Claim C8 (amended): a compare-and-swap ref update that fails because the
expected old value no longer matches is surfaced to the caller immediately;
`SetRef` issues exactly one `update-ref` invocation and never retries. -/
theorem setRef_single_attempt (s : GitState) (ref newHash prev : String)
    (hprev : prev ≠ "")
    (hmismatch : s.refs.lookup ref ≠ some prev) :
    (SetRef s ref newHash prev).1 =
      .error ("update-ref CAS failure on " ++ ref) ∧
    (SetRef s ref newHash prev).2.length = 1 := by
  have hne : (prev == "") = false := by rwa [beq_eq_false_iff_ne]
  constructor
  · simp [SetRef, hne, updateRef, hmismatch]
  · simp [SetRef]

/-- Witness for C8 (amended) at a concrete input. -/
theorem setRef_single_attempt_witness :
    (SetRef staleCasState "refs/notes/devtools/reviews" "n2" "a2").1 =
      .error ("update-ref CAS failure on " ++ "refs/notes/devtools/reviews") ∧
    (SetRef staleCasState "refs/notes/devtools/reviews" "n2" "a2").2.length = 1 :=
  setRef_single_attempt staleCasState "refs/notes/devtools/reviews" "n2" "a2"
    (by decide) (by decide)

/-- SHA1 produces 160 bit hashes, so a hex-encoded hash should be no more than
40 characters (web/web.go). -/
def maxHashLength : Nat := 40

/-- Go `len(s)` on a string: the UTF-8 byte length. -/
def byteLen (s : String) : Nat :=
  s.data.foldl (fun n c => n + c.utf8Size) 0

/-- Go `checkStringLooksLikeHash` (web/web.go): `none` models a nil error. -/
def checkStringLooksLikeHash (s : String) : Option String :=
  if byteLen s > maxHashLength then
    some "Invalid hash parameter"
  else if s.data.any (fun c =>
      (decide (c < 'a') || decide ('f' < c)) &&
      (decide (c < '0') || decide ('9' < c))) then
    some "Invalid hash character"
  else
    none

theorem bad_char_false_iff (c : Char) :
    ((decide (c < 'a') || decide ('f' < c)) &&
      (decide (c < '0') || decide ('9' < c))) = false ↔
    (('a' ≤ c ∧ c ≤ 'f') ∨ ('0' ≤ c ∧ c ≤ '9')) := by
  simp only [Bool.and_eq_false_iff, Bool.or_eq_false_iff,
    decide_eq_false_iff_not, not_lt]

theorem hex_utf8Size_one (c : Char)
    (h : ('a' ≤ c ∧ c ≤ 'f') ∨ ('0' ≤ c ∧ c ≤ '9')) : c.utf8Size = 1 := by
  have hv : c.val.toNat ≤ 102 := by
    rcases h with ⟨_, h2⟩ | ⟨_, h2⟩
    · have h3 := Char.le_def.mp h2
      rw [UInt32.le_def, BitVec.le_def] at h3
      exact le_trans h3 (by decide)
    · have h3 := Char.le_def.mp h2
      rw [UInt32.le_def, BitVec.le_def] at h3
      exact le_trans h3 (by decide)
  have hle : c.val ≤ UInt32.ofNatCore 0x7F (by decide) := by
    rw [UInt32.le_def, BitVec.le_def]
    exact le_trans hv (by decide)
  unfold Char.utf8Size
  rw [if_pos hle]

theorem foldl_utf8_eq_length (l : List Char)
    (h : ∀ c ∈ l, c.utf8Size = 1) :
    ∀ n : Nat, l.foldl (fun n c => n + c.utf8Size) n = n + l.length := by
  induction l with
  | nil => simp
  | cons c t ih =>
    intro n
    have hc : c.utf8Size = 1 := h c (by simp)
    have ht : ∀ c ∈ t, c.utf8Size = 1 := fun c hm => h c (by simp [hm])
    simp only [List.foldl_cons, ih ht, hc, List.length_cons]
    omega

theorem byteLen_eq_length (s : String)
    (h : ∀ c ∈ s.data, ('a' ≤ c ∧ c ≤ 'f') ∨ ('0' ≤ c ∧ c ≤ '9')) :
    byteLen s = s.length := by
  unfold byteLen
  rw [foldl_utf8_eq_length s.data (fun c hm => hex_utf8Size_one c (h c hm)) 0]
  rw [Nat.zero_add]
  rfl

/-- Claim C9: `checkStringLooksLikeHash` returns nil exactly for the strings of
length at most 40 whose characters all lie in `0..9` or `a..f` (including the
empty string and shorter strings), and returns an error for every other string
(in particular any string with an uppercase hex digit or longer than 40). -/
theorem checkStringLooksLikeHash_iff (s : String) :
    checkStringLooksLikeHash s = none ↔
      (s.length ≤ maxHashLength ∧
        ∀ c ∈ s.data, ('a' ≤ c ∧ c ≤ 'f') ∨ ('0' ≤ c ∧ c ≤ '9')) := by
  unfold checkStringLooksLikeHash
  by_cases hb : byteLen s > maxHashLength
  · simp only [hb, if_true, reduceCtorEq, false_iff, not_and]
    intro hlen hhex
    rw [byteLen_eq_length s hhex] at hb
    omega
  · by_cases ha : s.data.any (fun c =>
        (decide (c < 'a') || decide ('f' < c)) &&
        (decide (c < '0') || decide ('9' < c))) = true
    · simp only [hb, if_false, ha, if_true, reduceCtorEq, false_iff, not_and]
      intro _ hall
      rcases List.any_eq_true.mp ha with ⟨c, hc, hbad⟩
      have hfalse := (bad_char_false_iff c).mpr (hall c hc)
      rw [hbad] at hfalse
      exact absurd hfalse (by simp)
    · have ha' : ∀ c ∈ s.data, ('a' ≤ c ∧ c ≤ 'f') ∨ ('0' ≤ c ∧ c ≤ '9') := by
        intro c hc
        have hnb : ¬ ((decide (c < 'a') || decide ('f' < c)) &&
            (decide (c < '0') || decide ('9' < c))) = true :=
          fun hbad => ha (List.any_eq_true.mpr ⟨c, hc, hbad⟩)
        exact (bad_char_false_iff c).mp (Bool.eq_false_iff.mpr hnb)
      simp only [hb, if_false, ha, if_true]
      constructor
      · intro _
        refine ⟨?_, ha'⟩
        rw [← byteLen_eq_length s ha']
        omega
      · intro _
        rfl

/-- Go `strconv.ParseUint(s, 10, 32)`: `some n` on success.  Base-10 parsing
accepts only decimal digits (no sign), rejects the empty string, and fails
with a range error when the value does not fit in 32 bits. -/
def parseUint32 (s : String) : Option Nat :=
  if s.data = [] then none
  else if s.data.all (fun c => decide ('0' ≤ c) && decide (c ≤ '9')) then
    let n := s.data.foldl (fun n c => n * 10 + (c.toNat - '0'.toNat)) 0
    if n < 4294967296 then some n else none
  else none

/-- Observable outcome of `ServeBranchTemplate`: a 500 from the update step, a
400 from parameter validation, or a successful render that indexes
`RepoDetails.Branches` with the given number. -/
inductive BranchOutcome where
  | internalError
  | badRequest
  | renderBranch (branch : Nat)
  deriving DecidableEq

/-- Observable outcome of `ServeReviewTemplate`. -/
inductive ReviewOutcome where
  | internalError
  | badRequest
  | renderReview (branch : Nat) (review : String)
  deriving DecidableEq

/-- Go `ServeBranchTemplate` (web/web.go).  `updateOk` is the outcome of
`repoDetails.Update()`; `branchParam` is `r.URL.Query().Get("branch")` (the
empty string when the parameter is absent); `numBranches` is
`len(repoDetails.Branches)`. -/
def ServeBranchTemplate (updateOk : Bool) (branchParam : String)
    (numBranches : Nat) : BranchOutcome :=
  if updateOk = false then .internalError
  else if branchParam == "" then .badRequest
  else
    match parseUint32 branchParam with
    | none => .badRequest
    | some branchNum =>
      if numBranches ≤ branchNum then .badRequest
      else .renderBranch branchNum

/-- Go `ServeReviewTemplate` (web/web.go). -/
def ServeReviewTemplate (updateOk : Bool) (branchParam reviewParam : String)
    (numBranches : Nat) : ReviewOutcome :=
  if updateOk = false then .internalError
  else if branchParam == "" then .badRequest
  else
    match parseUint32 branchParam with
    | none => .badRequest
    | some branchNum =>
      if numBranches ≤ branchNum then .badRequest
      else if reviewParam == "" then .badRequest
      else
        match checkStringLooksLikeHash reviewParam with
        | some _ => .badRequest
        | none => .renderReview branchNum reviewParam

/-- Counterexample to claim C10: when `repoDetails.Update()` fails, both
handlers respond 500 (internal error) even though the branch parameter is
absent, so the claimed unconditional 400 response does not hold for every
HTTP request. -/
theorem serve_update_failure_counterexample :
    ServeBranchTemplate false "" 0 = .internalError ∧
    ServeBranchTemplate false "" 0 ≠ .badRequest ∧
    ServeReviewTemplate false "" "" 0 = .internalError :=
  ⟨rfl, by decide, rfl⟩

/-- Claim C10 (amended): when the update step succeeds, both handlers respond
400 before any indexing whenever the branch parameter is absent, not a decimal
unsigned 32-bit integer, or at least the number of branches (when the update
step fails they respond 500 instead).  Unconditionally, any successful render
outcome carries an in-bounds index into `RepoDetails.Branches`. -/
theorem serve_templates_branch_validation (branchParam reviewParam : String)
    (numBranches : Nat) :
    ((branchParam = "" ∨ parseUint32 branchParam = none ∨
        (∀ n, parseUint32 branchParam = some n → numBranches ≤ n)) →
      ServeBranchTemplate true branchParam numBranches = .badRequest ∧
      ServeReviewTemplate true branchParam reviewParam numBranches = .badRequest) ∧
    (∀ updateOk n,
      ServeBranchTemplate updateOk branchParam numBranches = .renderBranch n →
      n < numBranches) ∧
    (∀ updateOk n rv,
      ServeReviewTemplate updateOk branchParam reviewParam numBranches =
        .renderReview n rv →
      n < numBranches) := by
  refine ⟨?_, ?_, ?_⟩
  · intro h
    by_cases hemp : branchParam = ""
    · simp [ServeBranchTemplate, ServeReviewTemplate, hemp]
    · cases hp : parseUint32 branchParam with
      | none => simp [ServeBranchTemplate, ServeReviewTemplate, hemp, hp]
      | some m =>
        have hle : numBranches ≤ m := by
          rcases h with h | h | h
          · exact absurd h hemp
          · rw [hp] at h; exact absurd h (by simp)
          · exact h m hp
        simp [ServeBranchTemplate, ServeReviewTemplate, hemp, hp, hle]
  · intro updateOk n hres
    cases updateOk with
    | false => simp [ServeBranchTemplate] at hres
    | true =>
      by_cases hemp : (branchParam == "") = true
      · simp [ServeBranchTemplate, hemp] at hres
      · cases hp : parseUint32 branchParam with
        | none => simp [ServeBranchTemplate, hemp, hp] at hres
        | some m =>
          by_cases hle : numBranches ≤ m
          · simp [ServeBranchTemplate, hemp, hp, hle] at hres
          · simp [ServeBranchTemplate, hemp, hp, hle] at hres
            omega
  · intro updateOk n rv hres
    cases updateOk with
    | false => simp [ServeReviewTemplate] at hres
    | true =>
      by_cases hemp : (branchParam == "") = true
      · simp [ServeReviewTemplate, hemp] at hres
      · cases hp : parseUint32 branchParam with
        | none => simp [ServeReviewTemplate, hemp, hp] at hres
        | some m =>
          by_cases hle : numBranches ≤ m
          · simp [ServeReviewTemplate, hemp, hp, hle] at hres
          · by_cases hrev : (reviewParam == "") = true
            · simp [ServeReviewTemplate, hemp, hp, hle, hrev] at hres
            · cases hch : checkStringLooksLikeHash reviewParam with
              | some e => simp [ServeReviewTemplate, hemp, hp, hle, hrev, hch] at hres
              | none =>
                simp [ServeReviewTemplate, hemp, hp, hle, hrev, hch] at hres
                omega

/-- Witness for C10 (amended) at a concrete input: branch index 5 with only 3
branches is rejected with a 400 by both handlers. -/
theorem serve_templates_branch_validation_witness :
    ServeBranchTemplate true "5" 3 = .badRequest ∧
    ServeReviewTemplate true "5" "" 3 = .badRequest :=
  (serve_templates_branch_validation "5" "" 3).1
    (Or.inr (Or.inr (fun n h => by
      rw [show parseUint32 "5" = some 5 from rfl] at h
      injection h with h
      omega)))

/-- Go `strings.HasPrefix`. -/
def strStartsWith (s p : String) : Bool :=
  p.data.isPrefixOf s.data

/-- Go `strings.HasSuffix`. -/
def strEndsWith (s p : String) : Bool :=
  p.data.isSuffixOf s.data

/-- Go `strings.TrimPrefix`. -/
def trimPrefix (s p : String) : String :=
  if p.data.isPrefixOf s.data then ⟨s.data.drop p.data.length⟩ else s

/-- Go `strings.TrimSuffix`. -/
def trimSuffix (s p : String) : String :=
  if p.data.isSuffixOf s.data then ⟨s.data.take (s.data.length - p.data.length)⟩
  else s

/-- Go `strings.Split(s, sep)` for a one-character separator, at the character
level.  `Split("", sep)` is `[""]`, as in Go. -/
def splitCharList (sep : Char) : List Char → List (List Char)
  | [] => [[]]
  | c :: cs =>
    if c = sep then [] :: splitCharList sep cs
    else
      match splitCharList sep cs with
      | [] => [[c]]
      | h :: t => (c :: h) :: t

/-- Go `strings.Replace(s, "/", "", -1)`: delete every '/' character. -/
def stripSlashes (s : String) : String :=
  ⟨s.data.filter (fun c => c != '/')⟩

/-- Go `strings.Split(s, "\n")`. -/
def splitLines (s : String) : List String :=
  (splitCharList '\n' s.data).map (fun l => ⟨l⟩)

/-- The newline-joined output a git command prints for a list of lines (after
the surrounding `strings.TrimSpace` of `runGitCommand`): intercalate a single
newline, the empty string for an empty list. -/
def joinLinesChars : List (List Char) → List Char
  | [] => []
  | [l] => l
  | l :: rest => l ++ '\n' :: joinLinesChars rest

/-- String version of `joinLinesChars`. -/
def joinLines (l : List String) : String :=
  ⟨joinLinesChars (l.map String.data)⟩

theorem splitCharList_ne_nil (sep : Char) (cs : List Char) :
    splitCharList sep cs ≠ [] := by
  induction cs with
  | nil => simp [splitCharList]
  | cons c cs ih =>
    by_cases hc : c = sep
    · simp [splitCharList, hc]
    · simp only [splitCharList, if_neg hc]
      cases h : splitCharList sep cs with
      | nil => simp
      | cons a t => simp

theorem splitCharList_filter (sep : Char) (p : Char → Bool) (hp : p sep = true)
    (cs : List Char) :
    splitCharList sep (cs.filter p) = (splitCharList sep cs).map (List.filter p) := by
  induction cs with
  | nil => simp [splitCharList]
  | cons c cs ih =>
    by_cases hc : c = sep
    · subst hc
      rw [List.filter_cons_of_pos hp]
      simp [splitCharList, ih]
    · by_cases hpc : p c = true
      · rw [List.filter_cons_of_pos hpc]
        simp only [splitCharList, if_neg hc, ih]
        cases h : splitCharList sep cs with
        | nil => exact absurd h (splitCharList_ne_nil sep cs)
        | cons a t =>
          simp [List.filter_cons_of_pos hpc]
      · rw [List.filter_cons_of_neg (by simpa using hpc)]
        simp only [splitCharList, if_neg hc, ih]
        cases h : splitCharList sep cs with
        | nil => exact absurd h (splitCharList_ne_nil sep cs)
        | cons a t =>
          simp [List.filter_cons_of_neg (by simpa using hpc)]

theorem splitCharList_append_sep (sep : Char) (l rest : List Char)
    (hl : sep ∉ l) :
    splitCharList sep (l ++ sep :: rest) = l :: splitCharList sep rest := by
  induction l with
  | nil => simp [splitCharList]
  | cons c l ih =>
    have hc : c ≠ sep := fun h => hl (by simp [h])
    have hl' : sep ∉ l := fun h => hl (List.mem_cons_of_mem c h)
    show splitCharList sep (c :: (l ++ sep :: rest)) = _
    simp only [splitCharList, if_neg hc]
    rw [ih hl']

theorem splitCharList_no_sep (sep : Char) (l : List Char) (hl : sep ∉ l) :
    splitCharList sep l = [l] := by
  induction l with
  | nil => rfl
  | cons c l ih =>
    have hc : c ≠ sep := fun h => hl (by simp [h])
    have hl' : sep ∉ l := fun h => hl (List.mem_cons_of_mem c h)
    simp only [splitCharList, if_neg hc, ih hl']

theorem splitCharList_joinLinesChars :
    ∀ ls : List (List Char), ls ≠ [] → (∀ l ∈ ls, '\n' ∉ l) →
      splitCharList '\n' (joinLinesChars ls) = ls
  | [], h, _ => absurd rfl h
  | [l], _, hnl => by
    simp only [joinLinesChars]
    exact splitCharList_no_sep '\n' l (hnl l (by simp))
  | l :: l2 :: t, _, hnl => by
    have hj : joinLinesChars (l :: l2 :: t) = l ++ '\n' :: joinLinesChars (l2 :: t) := rfl
    rw [hj, splitCharList_append_sep '\n' l _ (hnl l (by simp)),
      splitCharList_joinLinesChars (l2 :: t) (by simp)
        (fun x hx => hnl x (by simp at hx; rcases hx with h | h <;> simp [h]))]

theorem splitLines_strip_join (paths : List String) (hne : paths ≠ [])
    (hnl : ∀ p ∈ paths, '\n' ∉ p.data) :
    splitLines (stripSlashes (joinLines paths)) = paths.map stripSlashes := by
  unfold splitLines stripSlashes joinLines
  show (splitCharList '\n' ((joinLinesChars (paths.map String.data)).filter
      (fun c => c != '/'))).map (fun l => (⟨l⟩ : String)) = _
  rw [splitCharList_filter '\n' (fun c => c != '/') (by decide),
    splitCharList_joinLinesChars (paths.map String.data) (by simpa using hne)
      (by
        intro l hlmem
        rcases List.mem_map.mp hlmem with ⟨p, hp, rfl⟩
        exact hnl p hp),
    List.map_map, List.map_map]
  rfl

/-- The ref-name constants of repository/git.go (`notesRefPrefix` etc.). -/
def notesRefBase : String := "refs/notes/"

/-- Go `devtoolsRefPrefix`. -/
def devtoolsRefBase : String := "refs/devtools/"

/-- Go `remoteDevtoolsRefPrefix`. -/
def remoteDevtoolsRefBase : String := "refs/remoteDevtools/"

/-- Go `getRemoteNotesRef`. -/
def getRemoteNotesRef (remote localNotesRef : String) : String :=
  notesRefBase ++ "remotes/" ++ remote ++ "/" ++ trimPrefix localNotesRef notesRefBase

/-- Go `getLocalNotesRef`. -/
def getLocalNotesRef (remote remoteNotesRef : String) : String :=
  notesRefBase ++ trimPrefix remoteNotesRef (notesRefBase ++ "remotes/" ++ remote ++ "/")

/-- Go `getRemoteDevtoolsRef`. -/
def getRemoteDevtoolsRef (remote devtoolsRefPattern : String) : String :=
  remoteDevtoolsRefBase ++ remote ++ "/" ++ trimPrefix devtoolsRefPattern devtoolsRefBase

/-- Go `getLocalDevtoolsRef`. -/
def getLocalDevtoolsRef (remote remoteDevtoolsRef : String) : String :=
  devtoolsRefBase ++ trimPrefix remoteDevtoolsRef (remoteDevtoolsRefBase ++ remote ++ "/")

/-- Go `getRefHashes` (repository/git.go): the refs matching a `<dir>/*`
pattern, read from `git show-ref`. -/
def getRefHashes (s : GitState) (refPattern : String) :
    Except String (List (String × String)) :=
  if strEndsWith refPattern "/*" = false then
    .error ("unsupported ref pattern " ++ refPattern)
  else
    .ok (s.refs.filter (fun rv => strStartsWith rv.1 (trimSuffix refPattern "*")))

/-- One git-level step of the sync protocol, recorded in order. -/
inductive SyncEvent where
  | fetchEvent (remote : String)
  | archiveMergeEvent (localRef remoteRef : String)
  | notesMergeEvent (localRef remoteRef strategy : String)
  deriving DecidableEq

/-- Behaviour of the git commands that the sync protocol invokes but whose
semantics live outside the Go code under analysis: the state transform of
`git fetch`, the state transform of `git notes merge -s cat_sort_uniq`, the
content-addressed hash of a commit created during an archive merge, and the
line lists printed by `git ls-tree -r --name-only` and
`git diff --name-only`.  Theorems hold for every instantiation. -/
structure SyncOracles where
  fetchResult : GitState → GitState
  notesMergeResult : String → String → GitState → GitState
  freshHash : GitState → String
  lsTreePaths : GitState → String → List String
  diffPaths : GitState → String → String → List String

/-- Go `updatedReviewSet[review] = struct{}{}`: set insertion (keeping first
insertion order). -/
def insertReview (acc : List String) (x : String) : List String :=
  if x ∈ acc then acc else acc ++ [x]

/-- The loop body of Go `FetchAndReturnNewReviewHashes`: walk the updated
remote notes refs and collect the names of changed notes files ('/' removed).
A ref whose hash is unchanged is skipped; a new ref contributes the whole
`ls-tree` listing, a changed one the `diff --name-only` listing. -/
def collectNewReviews (g : SyncOracles) (s1 : GitState)
    (priorRefHashes : List (String × String)) :
    List (String × String) → List String → List String
  | [], acc => acc
  | (ref, hash) :: rest, acc =>
    let priorLookup := priorRefHashes.lookup ref
    let priorHash := priorLookup.getD ""
    if priorHash == hash then
      collectNewReviews g s1 priorRefHashes rest acc
    else if priorLookup.isSome = false then
      collectNewReviews g s1 priorRefHashes rest
        ((splitLines (stripSlashes (joinLines (g.lsTreePaths s1 hash)))).foldl
          insertReview acc)
    else
      collectNewReviews g s1 priorRefHashes rest
        ((splitLines (stripSlashes (joinLines (g.diffPaths s1 priorHash hash)))).foldl
          insertReview acc)

/-- Go `FetchAndReturnNewReviewHashes` (repository/git.go): snapshot the
remote notes refs, fetch, snapshot again, and return the ids of the reviews
whose notes files changed, together with the new state and the trace of git
sync events. -/
def FetchAndReturnNewReviewHashes (g : SyncOracles) (s : GitState)
    (remote notesRefPattern : String) (devtoolsRefPatterns : List String) :
    Except String (GitState × List String × List SyncEvent) :=
  if devtoolsRefPatterns.any
      (fun p => strStartsWith p devtoolsRefBase = false) then
    .error "Unsupported devtools ref"
  else
    match getRefHashes s (getRemoteNotesRef remote notesRefPattern) with
    | .error e => .error e
    | .ok priorRefHashes =>
      let s1 := g.fetchResult s
      match getRefHashes s1 (getRemoteNotesRef remote notesRefPattern) with
      | .error e => .error e
      | .ok updatedRefHashes =>
        .ok (s1, collectNewReviews g s1 priorRefHashes updatedRefHashes [],
          [.fetchEvent remote])

/-- The loop of Go `MergeArchives`: merge each fetched remote archive ref into
its local counterpart with `mergeArchives`. -/
def mergeArchivesLoop (g : SyncOracles) (remote : String) :
    List (String × String) → GitState → List SyncEvent →
    Except String (GitState × List SyncEvent)
  | [], s, evs => .ok (s, evs)
  | (remoteRef, _) :: rest, s, evs =>
    let localRef := getLocalDevtoolsRef remote remoteRef
    match mergeArchives s (g.freshHash s) localRef remoteRef with
    | .error e => .error e
    | .ok s' =>
      mergeArchivesLoop g remote rest s'
        (evs ++ [.archiveMergeEvent localRef remoteRef])

/-- Go `MergeArchives` (repository/git.go). -/
def MergeArchives (g : SyncOracles) (s : GitState)
    (remote archiveRefPattern : String) :
    Except String (GitState × List SyncEvent) :=
  match getRefHashes s (getRemoteDevtoolsRef remote archiveRefPattern) with
  | .error e => .error e
  | .ok refsMap => mergeArchivesLoop g remote refsMap s []

/-- The loop of Go `MergeNotes`: merge each fetched remote notes ref into the
local notes ref with `git notes merge -s cat_sort_uniq`. -/
def mergeNotesLoop (g : SyncOracles) (remote : String) :
    List (String × String) → GitState → List SyncEvent →
    GitState × List SyncEvent
  | [], s, evs => (s, evs)
  | (remoteRef, _) :: rest, s, evs =>
    let localRef := getLocalNotesRef remote remoteRef
    mergeNotesLoop g remote rest (g.notesMergeResult localRef remoteRef s)
      (evs ++ [.notesMergeEvent localRef remoteRef "cat_sort_uniq"])

/-- Go `MergeNotes` (repository/git.go). -/
def MergeNotes (g : SyncOracles) (s : GitState)
    (remote notesRefPattern : String) :
    Except String (GitState × List SyncEvent) :=
  match getRefHashes s (getRemoteNotesRef remote notesRefPattern) with
  | .error e => .error e
  | .ok refsMap => .ok (mergeNotesLoop g remote refsMap s [])

/-- Go `PullNotesAndArchive` (repository/git.go): fetch, then merge archives,
then merge notes. -/
def PullNotesAndArchive (g : SyncOracles) (s : GitState)
    (remote notesRefPattern archiveRefPattern : String) :
    Except String (GitState × List SyncEvent) :=
  match FetchAndReturnNewReviewHashes g s remote notesRefPattern
      [archiveRefPattern] with
  | .error e => .error e
  | .ok (s1, _newReviews, ev1) =>
    match MergeArchives g s1 remote archiveRefPattern with
    | .error e => .error e
    | .ok (s2, ev2) =>
      match MergeNotes g s2 remote notesRefPattern with
      | .error e => .error e
      | .ok (s3, ev3) => .ok (s3, ev1 ++ ev2 ++ ev3)

/-- Recognizer for archive merge events. -/
def isArchiveMergeEvent : SyncEvent → Bool
  | .archiveMergeEvent _ _ => true
  | _ => false

/-- Recognizer for notes merge events that use the `cat_sort_uniq` strategy. -/
def isCatSortUniqNotesMerge : SyncEvent → Bool
  | .notesMergeEvent _ _ strat => strat == "cat_sort_uniq"
  | _ => false

/-- The ordering claimed in the spec for pull: after the fetch, first all
annotation (notes) merges with `cat_sort_uniq`, then all archive merges. -/
def notesThenArchives (tr : List SyncEvent) : Bool :=
  match tr with
  | .fetchEvent _ :: rest =>
    rest.all (fun e => isCatSortUniqNotesMerge e || isArchiveMergeEvent e) &&
    (rest.dropWhile isCatSortUniqNotesMerge).all isArchiveMergeEvent
  | _ => false

/-- Concrete pre-pull state for C2: one remote-tracking notes ref and one
remote-tracking archive ref. -/
def pullExampleState : GitState :=
  ⟨[("refs/notes/remotes/origin/devtools/reviews", "n1"),
    ("refs/remoteDevtools/origin/archives/reviews", "a1")], []⟩

/-- Concrete oracles for C2: fetch and notes merges leave the state unchanged,
the diff listings are empty. -/
def pullExampleOracles : SyncOracles :=
  { fetchResult := fun s => s
    notesMergeResult := fun _ _ s => s
    freshHash := fun _ => "m1"
    lsTreePaths := fun _ _ => []
    diffPaths := fun _ _ _ => [] }

/-- The trace `PullNotesAndArchive` produces on `pullExampleState`. -/
def pullExampleTrace : List SyncEvent :=
  [.fetchEvent "origin",
   .archiveMergeEvent "refs/devtools/archives/reviews"
     "refs/remoteDevtools/origin/archives/reviews",
   .notesMergeEvent "refs/notes/devtools/reviews"
     "refs/notes/remotes/origin/devtools/reviews" "cat_sort_uniq"]

/-- The state `PullNotesAndArchive` produces on `pullExampleState`: the local
archive ref is fast-created. -/
def pullExampleFinal : GitState :=
  ⟨[("refs/notes/remotes/origin/devtools/reviews", "n1"),
    ("refs/remoteDevtools/origin/archives/reviews", "a1"),
    ("refs/devtools/archives/reviews", "a1")], []⟩

/-- Counterexample to claim C2: on a state with one remote notes ref and one
remote archive ref, pull merges the archive ref first and the annotation ref
afterwards, refuting the claimed "annotation refs merged before archive refs"
order (both kinds of merges occur in the trace). -/
theorem pull_merges_archives_before_notes :
    PullNotesAndArchive pullExampleOracles pullExampleState "origin"
        "refs/notes/devtools/*" "refs/devtools/archives/*" =
      .ok (pullExampleFinal, pullExampleTrace) ∧
    notesThenArchives pullExampleTrace = false ∧
    pullExampleTrace.any isCatSortUniqNotesMerge = true ∧
    pullExampleTrace.any isArchiveMergeEvent = true :=
  ⟨rfl, rfl, rfl, rfl⟩

theorem mergeArchivesLoop_all (g : SyncOracles) (remote : String)
    (l : List (String × String)) :
    ∀ s evs s' evs', mergeArchivesLoop g remote l s evs = .ok (s', evs') →
      evs.all isArchiveMergeEvent = true →
      evs'.all isArchiveMergeEvent = true := by
  induction l with
  | nil =>
    intro s evs s' evs' hok hall
    simp only [mergeArchivesLoop, Except.ok.injEq, Prod.mk.injEq] at hok
    rw [← hok.2]
    exact hall
  | cons rv rest ih =>
    intro s evs s' evs' hok hall
    obtain ⟨remoteRef, x⟩ := rv
    simp only [mergeArchivesLoop] at hok
    cases hm : mergeArchives s (g.freshHash s)
        (getLocalDevtoolsRef remote remoteRef) remoteRef with
    | error e => rw [hm] at hok; exact absurd hok (by simp)
    | ok s2 =>
      rw [hm] at hok
      exact ih s2 _ s' evs' hok
        (by simp [List.all_append, hall, isArchiveMergeEvent])

theorem mergeNotesLoop_all (g : SyncOracles) (remote : String)
    (l : List (String × String)) :
    ∀ s evs, evs.all isCatSortUniqNotesMerge = true →
      (mergeNotesLoop g remote l s evs).2.all isCatSortUniqNotesMerge = true := by
  induction l with
  | nil =>
    intro s evs hall
    simpa [mergeNotesLoop] using hall
  | cons rv rest ih =>
    intro s evs hall
    obtain ⟨remoteRef, x⟩ := rv
    simp only [mergeNotesLoop]
    exact ih _ _ (by simp [List.all_append, hall, isCatSortUniqNotesMerge])

/-- Claim C2 (amended): pull performs the merge steps in this order: a single
fetch, then for each archive ref the archive merge rule of §4.7, and then for
each local annotation ref a merge of the remote-tracking ref with the
commutative `cat_sort_uniq` notes strategy (archive refs merged before
annotation refs, not the other way around). -/
theorem pull_trace_archives_then_notes (g : SyncOracles) (s : GitState)
    (remote notesRefPattern archiveRefPattern : String) (s' : GitState)
    (tr : List SyncEvent)
    (hok : PullNotesAndArchive g s remote notesRefPattern archiveRefPattern =
      .ok (s', tr)) :
    ∃ archEvs notesEvs,
      tr = .fetchEvent remote :: (archEvs ++ notesEvs) ∧
      archEvs.all isArchiveMergeEvent = true ∧
      notesEvs.all isCatSortUniqNotesMerge = true := by
  unfold PullNotesAndArchive at hok
  split at hok
  · exact absurd hok (by simp)
  · rename_i s1 reviews ev1 heqFetch
    split at hok
    · exact absurd hok (by simp)
    · rename_i s2 ev2 heqArch
      split at hok
      · exact absurd hok (by simp)
      · rename_i s3 ev3 heqNotes
        simp only [Except.ok.injEq, Prod.mk.injEq] at hok
        have hev1 : ev1 = [.fetchEvent remote] := by
          unfold FetchAndReturnNewReviewHashes at heqFetch
          dsimp only at heqFetch
          split at heqFetch
          · exact absurd heqFetch (by simp)
          · split at heqFetch
            · exact absurd heqFetch (by simp)
            · split at heqFetch
              · exact absurd heqFetch (by simp)
              · simp only [Except.ok.injEq, Prod.mk.injEq] at heqFetch
                exact heqFetch.2.2.symm
        have harch : ev2.all isArchiveMergeEvent = true := by
          unfold MergeArchives at heqArch
          cases hr : getRefHashes s1 (getRemoteDevtoolsRef remote archiveRefPattern) with
          | error e => rw [hr] at heqArch; exact absurd heqArch (by simp)
          | ok refsMap =>
            rw [hr] at heqArch
            exact mergeArchivesLoop_all g remote refsMap s1 [] s2 ev2 heqArch rfl
        have hnotes : ev3.all isCatSortUniqNotesMerge = true := by
          unfold MergeNotes at heqNotes
          cases hr : getRefHashes s2 (getRemoteNotesRef remote notesRefPattern) with
          | error e => rw [hr] at heqNotes; exact absurd heqNotes (by simp)
          | ok refsMap =>
            rw [hr] at heqNotes
            simp only [Except.ok.injEq] at heqNotes
            have hall := mergeNotesLoop_all g remote refsMap s2 [] rfl
            rw [heqNotes] at hall
            exact hall
        refine ⟨ev2, ev3, ?_, harch, hnotes⟩
        rw [← hok.2, hev1]
        simp

/-- Witness for C2 (amended) at the concrete example state. -/
theorem pull_trace_archives_then_notes_witness :
    ∃ archEvs notesEvs,
      pullExampleTrace = .fetchEvent "origin" :: (archEvs ++ notesEvs) ∧
      archEvs.all isArchiveMergeEvent = true ∧
      notesEvs.all isCatSortUniqNotesMerge = true :=
  pull_trace_archives_then_notes pullExampleOracles pullExampleState "origin"
    "refs/notes/devtools/*" "refs/devtools/archives/*" pullExampleFinal
    pullExampleTrace rfl

/-- The set of newly-changed review ids as the spec describes it: the union,
over every remote-tracking annotation ref whose hash changed across the fetch,
of the notes-tree path names whose blobs differ from the prior version (all of
them for a new ref), with '/' stripped; an unchanged ref contributes
nothing. -/
def specNewReviewIds (g : SyncOracles) (s1 : GitState)
    (priorRefHashes updatedRefHashes : List (String × String)) : List String :=
  updatedRefHashes.flatMap (fun rv =>
    match priorRefHashes.lookup rv.1 with
    | some priorHash =>
      if priorHash = rv.2 then []
      else (g.diffPaths s1 priorHash rv.2).map stripSlashes
    | none => (g.lsTreePaths s1 rv.2).map stripSlashes)

/-- Concrete pre-fetch state for C5: one remote-tracking notes ref at `h1`. -/
def c5State : GitState :=
  ⟨[("refs/notes/remotes/origin/devtools/reviews", "h1")], []⟩

/-- Concrete oracles for the C5 counterexample: the fetch moves the notes ref
to `h2`, but the name-only diff between the two notes commits is empty. -/
def c5Oracles : SyncOracles :=
  { fetchResult := fun s =>
      ⟨[("refs/notes/remotes/origin/devtools/reviews", "h2")], s.objects⟩
    notesMergeResult := fun _ _ s => s
    freshHash := fun _ => "f1"
    lsTreePaths := fun _ _ => []
    diffPaths := fun _ _ _ => [] }

/-- Counterexample to claim C5: when a remote-tracking notes ref changes hash
but its name-only diff is empty, the code splits the empty diff output and
returns the singleton list containing the empty string, while the claimed
union of changed path names is empty. -/
theorem fetch_new_review_ids_empty_diff :
    FetchAndReturnNewReviewHashes c5Oracles c5State "origin"
        "refs/notes/devtools/*" ["refs/devtools/archives/*"] =
      .ok (⟨[("refs/notes/remotes/origin/devtools/reviews", "h2")], []⟩, [""],
        [.fetchEvent "origin"]) ∧
    specNewReviewIds c5Oracles
        ⟨[("refs/notes/remotes/origin/devtools/reviews", "h2")], []⟩
        [("refs/notes/remotes/origin/devtools/reviews", "h1")]
        [("refs/notes/remotes/origin/devtools/reviews", "h2")] = [] ∧
    ([""] : List String) ≠ [] :=
  ⟨rfl, rfl, by decide⟩

/-- Per-ref hypotheses under which the code's string pipeline agrees with the
spec's union of path names: every contributing `diff`/`ls-tree` listing is
nonempty and its paths contain no newline, and a ref new after the fetch has a
nonempty hash. -/
def goodPaths (g : SyncOracles) (s1 : GitState)
    (priorRefHashes : List (String × String)) (rv : String × String) : Prop :=
  match priorRefHashes.lookup rv.1 with
  | some priorHash =>
    priorHash = rv.2 ∨
      (g.diffPaths s1 priorHash rv.2 ≠ [] ∧
        ∀ p ∈ g.diffPaths s1 priorHash rv.2, '\n' ∉ p.data)
  | none =>
    rv.2 ≠ "" ∧ g.lsTreePaths s1 rv.2 ≠ [] ∧
      ∀ p ∈ g.lsTreePaths s1 rv.2, '\n' ∉ p.data

theorem mem_insertReview (acc : List String) (y x : String) :
    x ∈ insertReview acc y ↔ x ∈ acc ∨ x = y := by
  unfold insertReview
  by_cases h : y ∈ acc
  · simp only [h, if_true]
    constructor
    · exact Or.inl
    · rintro (hx | rfl)
      · exact hx
      · exact h
  · simp [h]

theorem mem_foldl_insertReview (l : List String) :
    ∀ (acc : List String) (x : String),
      x ∈ l.foldl insertReview acc ↔ x ∈ acc ∨ x ∈ l := by
  induction l with
  | nil => simp
  | cons a l ih =>
    intro acc x
    simp only [List.foldl_cons, ih, mem_insertReview, List.mem_cons]
    tauto

theorem collectNewReviews_mem (g : SyncOracles) (s1 : GitState)
    (prior : List (String × String)) :
    ∀ (l : List (String × String)) (acc : List String) (x : String),
      (∀ rv ∈ l, goodPaths g s1 prior rv) →
      (x ∈ collectNewReviews g s1 prior l acc ↔
        x ∈ acc ∨ x ∈ specNewReviewIds g s1 prior l) := by
  intro l
  induction l with
  | nil =>
    intro acc x _
    simp [collectNewReviews, specNewReviewIds]
  | cons rv rest ih =>
    intro acc x hgood
    obtain ⟨ref, hash⟩ := rv
    have hgood0 := hgood (ref, hash) (by simp)
    have hgoodrest : ∀ rv ∈ rest, goodPaths g s1 prior rv :=
      fun rv h => hgood rv (by simp [h])
    unfold goodPaths at hgood0
    cases hl : prior.lookup ref with
    | some ph =>
      rw [hl] at hgood0
      by_cases he : ph = hash
      · subst he
        simp only [collectNewReviews, specNewReviewIds, hl, Option.getD_some,
          beq_self_eq_true, if_true, List.flatMap_cons, if_pos rfl,
          List.nil_append]
        exact ih acc x hgoodrest
      · have hg : g.diffPaths s1 ph hash ≠ [] ∧
            ∀ p ∈ g.diffPaths s1 ph hash, '\n' ∉ p.data := by
          rcases hgood0 with h | h
          · exact absurd h he
          · exact h
        have hbe : (ph == hash) = false := by rwa [beq_eq_false_iff_ne]
        simp only [collectNewReviews, specNewReviewIds, hl, Option.getD_some,
          hbe, Bool.false_eq_true, Bool.true_eq_false, if_false, if_true,
          Option.isSome_some, List.flatMap_cons, if_neg he]
        rw [splitLines_strip_join (g.diffPaths s1 ph hash) hg.1 hg.2]
        rw [ih _ x hgoodrest, mem_foldl_insertReview]
        simp only [specNewReviewIds, List.mem_append]
        tauto
    | none =>
      rw [hl] at hgood0
      obtain ⟨hz, hne, hnl⟩ := hgood0
      have hbe : ("" == hash) = false := by
        rw [beq_eq_false_iff_ne]
        exact fun h => hz h.symm
      simp only [collectNewReviews, specNewReviewIds, hl, Option.getD_none,
        hbe, Bool.false_eq_true, Bool.true_eq_false, if_false, if_true,
        Option.isSome_none, List.flatMap_cons]
      rw [splitLines_strip_join (g.lsTreePaths s1 hash) hne hnl]
      rw [ih _ x hgoodrest, mem_foldl_insertReview]
      simp only [specNewReviewIds, List.mem_append]
      tauto

/-- Claim C5 (amended): the set of review ids returned by the fetch step is
the union, over every remote-tracking annotation ref whose hash changed across
the fetch, of the notes-tree path names whose blobs differ from the prior
version, with every '/' stripped; an unchanged ref contributes nothing and a
new ref contributes every path in its tree — provided every contributing
diff/ls-tree listing is nonempty (a changed ref whose listing is empty
contributes the empty string instead, see the counterexample). -/
theorem fetch_new_review_ids_spec (g : SyncOracles) (s : GitState)
    (remote notesRefPattern : String) (devtoolsRefPatterns : List String)
    (s1 : GitState) (reviews : List String) (evs : List SyncEvent)
    (prior updated : List (String × String))
    (hprior : getRefHashes s (getRemoteNotesRef remote notesRefPattern) = .ok prior)
    (hupd : getRefHashes (g.fetchResult s) (getRemoteNotesRef remote notesRefPattern) =
      .ok updated)
    (hok : FetchAndReturnNewReviewHashes g s remote notesRefPattern
      devtoolsRefPatterns = .ok (s1, reviews, evs))
    (hgood : ∀ rv ∈ updated, goodPaths g (g.fetchResult s) prior rv) :
    ∀ x, x ∈ reviews ↔ x ∈ specNewReviewIds g s1 prior updated := by
  intro x
  unfold FetchAndReturnNewReviewHashes at hok
  split at hok
  · exact absurd hok (by simp)
  · rw [hprior] at hok
    dsimp only at hok
    rw [hupd] at hok
    simp only [Except.ok.injEq, Prod.mk.injEq] at hok
    obtain ⟨hs1, hrev, -⟩ := hok
    subst hs1
    rw [← hrev, collectNewReviews_mem g (g.fetchResult s) prior updated [] x hgood]
    simp

/-- Concrete oracles for the C5 witness: the fetch moves the notes ref to
`h2` and the name-only diff lists one nested path. -/
def c5GoodOracles : SyncOracles :=
  { fetchResult := fun s =>
      ⟨[("refs/notes/remotes/origin/devtools/reviews", "h2")], s.objects⟩
    notesMergeResult := fun _ _ s => s
    freshHash := fun _ => "f1"
    lsTreePaths := fun _ _ => ["ab/cd"]
    diffPaths := fun _ _ _ => ["ab/cd"] }

/-- Witness for C5 (amended) at a concrete input: the changed ref contributes
the path `ab/cd` with the slash stripped. -/
theorem fetch_new_review_ids_spec_witness :
    "abcd" ∈ (["abcd"] : List String) ↔
      "abcd" ∈ specNewReviewIds c5GoodOracles
        ⟨[("refs/notes/remotes/origin/devtools/reviews", "h2")], []⟩
        [("refs/notes/remotes/origin/devtools/reviews", "h1")]
        [("refs/notes/remotes/origin/devtools/reviews", "h2")] :=
  fetch_new_review_ids_spec c5GoodOracles c5State "origin"
    "refs/notes/devtools/*" ["refs/devtools/archives/*"]
    ⟨[("refs/notes/remotes/origin/devtools/reviews", "h2")], []⟩
    ["abcd"] [.fetchEvent "origin"]
    [("refs/notes/remotes/origin/devtools/reviews", "h1")]
    [("refs/notes/remotes/origin/devtools/reviews", "h2")]
    rfl rfl rfl
    (fun rv hrv => by
      rw [List.mem_singleton] at hrv
      subst hrv
      exact Or.inr ⟨by decide, by decide⟩)
    "abcd"

/-- Go `comment.Range` (line/column span of a file comment). -/
structure CommentRange where
  startLine : Nat
  startColumn : Nat
  endLine : Nat
  endColumn : Nat
  deriving DecidableEq, Inhabited

/-- Go `comment.Location`. -/
structure CommentLocation where
  commit : String
  path : String
  range : Option CommentRange
  deriving DecidableEq

/-- Go `comment.Comment` (review/comment package). -/
structure ReviewComment where
  timestamp : String
  author : String
  parent : String
  description : String
  location : Option CommentLocation
  resolved : Option Bool
  signature : Option String
  deriving DecidableEq

/-- Go `review.CommentThread`, restricted to the fields the comment command
reads: the content hash and the child threads. -/
inductive CommentThread where
  | mk (hash : String) (children : List CommentThread)

/-- Go `commentHashExists` (commands/comment.go): whether a hash occurs at any
depth in the given threads. -/
def commentHashExists (hashToFind : String) : List CommentThread → Bool
  | [] => false
  | .mk h children :: rest =>
    h == hashToFind || commentHashExists hashToFind children ||
      commentHashExists hashToFind rest

/-- The review data the comment/accept commands consume: the result of
`GetHeadCommit` and the aggregated comment threads. -/
structure ReviewModel where
  headCommitResult : Except String String
  comments : List CommentThread

/-- Results of the collaborator calls the commands make (`GetUserEmail`,
`input.FromFile`, `input.LaunchEditor`, `GetDate`/`FormatDate`,
`GetUserSigningKey`, the armored signature gpg produces, `comment.New`, and
`Location.Check`); these live outside the code under analysis and the
theorems hold for every instantiation. -/
structure CommandOracles where
  userEmail : Except String String
  fromFile : String → Except String String
  launchEditor : Except String String
  getDate : String → Except String (Option String)
  now : String
  formatDate : String → String
  signingKey : Except String String
  signatureOf : ReviewComment → Except String String
  newComment : String → String → ReviewComment
  locationCheck : CommentLocation → Except String Unit

/-- Modelled from the spec: `gpg.Sign` (review/gpg, not under src/) computes a
detached armored signature over the record's canonical bytes and places the
armored signature string into the record's `signature` field, leaving every
other field unchanged. -/
def gpgSign (sig : String) (c : ReviewComment) : ReviewComment :=
  { c with signature := some sig }

/-- Flags of the accept command. -/
structure AcceptFlags where
  messageFile : String
  message : String
  date : String
  sign : Bool

/-- Go `acceptReview` (commands/accept.go).  The returned comment is the one
passed to `r.AddComment`; an error result means the command returned before
that single repository mutation. -/
def acceptReview (g : CommandOracles)
    (loadResult : Except String (Option ReviewModel)) (flags : AcceptFlags) :
    Except String ReviewComment :=
  match loadResult with
  | .error e => .error ("Failed to load the review: " ++ e)
  | .ok none => .error "There is no matching review."
  | .ok (some r) =>
    match r.headCommitResult with
    | .error e => .error e
    | .ok acceptedCommit =>
      let location : CommentLocation :=
        { commit := acceptedCommit, path := "", range := none }
      match g.userEmail with
      | .error e => .error e
      | .ok userEmail =>
        match (if flags.messageFile != "" && flags.message == "" then
            g.fromFile flags.messageFile
          else .ok flags.message) with
        | .error e => .error e
        | .ok message =>
          match g.getDate flags.date with
          | .error e => .error e
          | .ok dateOpt =>
            let date := dateOpt.getD g.now
            let timestamp := g.formatDate date
            let c0 := g.newComment userEmail message
            let c1 := { c0 with location := some location,
                                resolved := some true }
            let c2 := if timestamp.length > 0 then
                { c1 with timestamp := timestamp }
              else c1
            if flags.sign then
              match g.signingKey with
              | .error e => .error e
              | .ok _key =>
                match g.signatureOf c2 with
                | .error e => .error e
                | .ok sig => .ok (gpgSign sig c2)
            else .ok c2

/-- Claim C7: whenever the accept command reaches `AddComment`, the comment it
appends carries `Resolved = true` and a location whose commit is the review's
head commit. -/
theorem accept_adds_lgtm_comment_on_head (g : CommandOracles)
    (loadResult : Except String (Option ReviewModel)) (flags : AcceptFlags)
    (r : ReviewModel) (head : String) (c : ReviewComment)
    (hload : loadResult = .ok (some r))
    (hhead : r.headCommitResult = .ok head)
    (hok : acceptReview g loadResult flags = .ok c) :
    c.resolved = some true ∧
    ∃ loc, c.location = some loc ∧ loc.commit = head := by
  subst hload
  unfold acceptReview at hok
  dsimp only at hok
  rw [hhead] at hok
  dsimp only at hok
  split at hok
  · exact absurd hok (by simp)
  · split at hok
    · exact absurd hok (by simp)
    · split at hok
      · exact absurd hok (by simp)
      · split at hok
        · split at hok
          · exact absurd hok (by simp)
          · split at hok
            · exact absurd hok (by simp)
            · simp only [Except.ok.injEq] at hok
              subst hok
              constructor
              · simp only [gpgSign]
                split <;> rfl
              · simp only [gpgSign]
                split <;> exact ⟨_, rfl, rfl⟩
        · simp only [Except.ok.injEq] at hok
          subst hok
          constructor
          · split <;> rfl
          · split <;> exact ⟨_, rfl, rfl⟩

/-- Concrete oracle instantiation for the command witnesses. -/
def commandWitnessOracles : CommandOracles :=
  { userEmail := .ok "user@example.com"
    fromFile := fun _ => .ok ""
    launchEditor := .ok ""
    getDate := fun _ => .ok none
    now := "1000"
    formatDate := fun d => d
    signingKey := .ok "key"
    signatureOf := fun _ => .ok "sig"
    newComment := fun author msg =>
      { timestamp := "", author := author, parent := "", description := msg,
        location := none, resolved := none, signature := none }
    locationCheck := fun _ => .ok () }

/-- Witness for C7 at a concrete input. -/
theorem accept_adds_lgtm_comment_on_head_witness :
    ({ timestamp := "1000", author := "user@example.com", parent := "",
       description := "m",
       location := some { commit := "h1", path := "", range := none },
       resolved := some true, signature := none } : ReviewComment).resolved =
        some true ∧
    ∃ loc,
      ({ timestamp := "1000", author := "user@example.com", parent := "",
         description := "m",
         location := some { commit := "h1", path := "", range := none },
         resolved := some true, signature := none } : ReviewComment).location =
          some loc ∧
      loc.commit = "h1" :=
  accept_adds_lgtm_comment_on_head commandWitnessOracles
    (.ok (some ⟨.ok "h1", []⟩)) ⟨"", "m", "", false⟩ ⟨.ok "h1", []⟩ "h1" _
    rfl rfl rfl

/-- Flags of the comment command (commands/comment.go). -/
structure CommentFlags where
  messageFile : String
  message : String
  parent : String
  file : String
  rangeVal : CommentRange
  detached : Bool
  lgtm : Bool
  nmw : Bool
  sign : Bool
  date : String

/-- Go `validateArgs` (commands/comment.go): flag validation and message
acquisition.  On success it returns the final message (Go mutates the global
`*commentMessage`); an error means the command stops before any repository
mutation. -/
def validateArgs (g : CommandOracles) (flags : CommentFlags)
    (threads : List CommentThread) : Except String String :=
  if flags.lgtm && flags.nmw then
    .error "You cannot combine the flags -lgtm and -nmw."
  else if flags.parent != "" && !(commentHashExists flags.parent threads) then
    .error "There is no matching parent comment."
  else
    match (if flags.messageFile != "" && flags.message == "" then
        g.fromFile flags.messageFile
      else .ok flags.message) with
    | .error e => .error e
    | .ok message1 =>
      match (if flags.messageFile == "" && message1 == "" then
          g.launchEditor
        else .ok message1) with
      | .error e => .error e
      | .ok message2 =>
        if flags.messageFile == "" && message2 == "" then
          .error "No comment"
        else
          .ok message2

/-- Go `buildCommentFromFlags` (commands/comment.go). -/
def buildCommentFromFlags (g : CommandOracles) (flags : CommentFlags)
    (message commentedUponCommit : String) : Except String ReviewComment :=
  let location : CommentLocation :=
    { commit := commentedUponCommit,
      path := if flags.file != "" then flags.file else "",
      range := some flags.rangeVal }
  match g.locationCheck location with
  | .error e => .error ("Unable to comment on the given location: " ++ e)
  | .ok _ =>
    match g.userEmail with
    | .error e => .error e
    | .ok userEmail =>
      match g.getDate flags.date with
      | .error e => .error e
      | .ok dateOpt =>
        let date := dateOpt.getD g.now
        let timestamp := g.formatDate date
        let c0 := g.newComment userEmail message
        let c1 := { c0 with location := some location, parent := flags.parent }
        let c2 := if timestamp.length > 0 then
            { c1 with timestamp := timestamp }
          else c1
        let c3 := if flags.lgtm || flags.nmw then
            { c2 with resolved := some flags.lgtm }
          else c2
        if flags.sign then
          match g.signingKey with
          | .error e => .error e
          | .ok _key =>
            match g.signatureOf c3 with
            | .error e => .error e
            | .ok sig => .ok (gpgSign sig c3)
        else .ok c3

/-- Go `commentOnReview` (commands/comment.go): load the review, validate the
flags, and append the built comment.  The returned comment is the one passed
to `r.AddComment`; an error result means the command returned before that
single repository mutation. -/
def commentOnReview (g : CommandOracles)
    (loadResult : Except String (Option ReviewModel)) (flags : CommentFlags) :
    Except String ReviewComment :=
  match loadResult with
  | .error e => .error ("Failed to load the review: " ++ e)
  | .ok none => .error "There is no matching review."
  | .ok (some r) =>
    match validateArgs g flags r.comments with
    | .error e => .error e
    | .ok message =>
      match r.headCommitResult with
      | .error e => .error e
      | .ok commentedUponCommit =>
        buildCommentFromFlags g flags message commentedUponCommit

/-- Flags refuting C6: a message file is supplied but its content is empty,
the message flag is empty, and the editor would also return empty. -/
def c6Flags : CommentFlags :=
  { messageFile := "f", message := "", parent := "", file := "",
    rangeVal := ⟨0, 0, 0, 0⟩, detached := false, lgtm := false, nmw := false,
    sign := false, date := "" }

/-- The comment the command appends in the C6 counterexample: its description
is empty. -/
def c6Result : ReviewComment :=
  { timestamp := "1000", author := "user@example.com", parent := "",
    description := "",
    location := some { commit := "h1", path := "", range := some ⟨0, 0, 0, 0⟩ },
    resolved := none, signature := none }

/-- Counterexample to claim C6: every input source yields an empty message
(the `-m` flag is empty, the `-F` file contents are empty, and the editor
would return empty), yet `validateArgs` accepts the arguments and the command
proceeds to append a comment with an empty description — no validation error,
and a repository mutation happens. -/
theorem comment_empty_file_message_accepted :
    c6Flags.message = "" ∧
    commandWitnessOracles.fromFile c6Flags.messageFile = .ok "" ∧
    commandWitnessOracles.launchEditor = .ok "" ∧
    commentOnReview commandWitnessOracles (.ok (some ⟨.ok "h1", []⟩)) c6Flags =
      .ok c6Result :=
  ⟨rfl, rfl, rfl, rfl⟩

/-- Claim C6 (amended): the comment command returns an error and performs no
repository mutation whenever both `-lgtm` and `-nmw` are set, or the given
parent hash does not equal the hash of any comment (at any depth) in the
review's comment threads, or no message flag and no message file are given
and the editor yields an empty message.  (A message file with empty content
passes validation with an empty message, see the counterexample.) -/
theorem comment_validation_errors (g : CommandOracles)
    (loadResult : Except String (Option ReviewModel)) (flags : CommentFlags) :
    ((flags.lgtm && flags.nmw) = true →
      ∃ e, commentOnReview g loadResult flags = .error e) ∧
    (∀ r, loadResult = .ok (some r) → flags.parent ≠ "" →
      commentHashExists flags.parent r.comments = false →
      ∃ e, commentOnReview g loadResult flags = .error e) ∧
    (flags.messageFile = "" → flags.message = "" → g.launchEditor = .ok "" →
      ∃ e, commentOnReview g loadResult flags = .error e) := by
  refine ⟨?_, ?_, ?_⟩
  · intro hlg
    cases loadResult with
    | error e => exact ⟨_, rfl⟩
    | ok ro =>
      cases ro with
      | none => exact ⟨_, rfl⟩
      | some r =>
        exact ⟨"You cannot combine the flags -lgtm and -nmw.",
          by simp [commentOnReview, validateArgs, hlg]⟩
  · intro r hload hpar hex
    subst hload
    by_cases hlg : (flags.lgtm && flags.nmw) = true
    · exact ⟨"You cannot combine the flags -lgtm and -nmw.",
        by simp [commentOnReview, validateArgs, hlg]⟩
    · have hlg' : (flags.lgtm && flags.nmw) = false := Bool.eq_false_iff.mpr hlg
      have hbne : (flags.parent != "") = true := by
        simp only [bne_iff_ne, ne_eq]
        exact hpar
      exact ⟨"There is no matching parent comment.",
        by simp [commentOnReview, validateArgs, hlg', hbne, hex]⟩
  · intro hmf hmsg hed
    cases loadResult with
    | error e => exact ⟨_, rfl⟩
    | ok ro =>
      cases ro with
      | none => exact ⟨_, rfl⟩
      | some r =>
        by_cases hlg : (flags.lgtm && flags.nmw) = true
        · exact ⟨"You cannot combine the flags -lgtm and -nmw.",
            by simp [commentOnReview, validateArgs, hlg]⟩
        · have hlg' : (flags.lgtm && flags.nmw) = false := Bool.eq_false_iff.mpr hlg
          by_cases hc2 : (flags.parent != "" &&
              !(commentHashExists flags.parent r.comments)) = true
          · exact ⟨"There is no matching parent comment.",
              by simp [commentOnReview, validateArgs, hlg', hc2]⟩
          · have hc2' : (flags.parent != "" &&
                !(commentHashExists flags.parent r.comments)) = false :=
              Bool.eq_false_iff.mpr hc2
            exact ⟨"No comment",
              by simp [commentOnReview, validateArgs, hlg', hc2', hmf, hmsg, hed]⟩

/-- Flags for the C6 witness: `-lgtm` and `-nmw` both set. -/
def c6LgtmNmwFlags : CommentFlags :=
  { messageFile := "", message := "m", parent := "", file := "",
    rangeVal := ⟨0, 0, 0, 0⟩, detached := false, lgtm := true, nmw := true,
    sign := false, date := "" }

/-- Witness for C6 (amended) at a concrete input. -/
theorem comment_validation_errors_witness :
    ∃ e, commentOnReview commandWitnessOracles (.ok (some ⟨.ok "h1", []⟩))
      c6LgtmNmwFlags = .error e :=
  (comment_validation_errors commandWitnessOracles
    (.ok (some ⟨.ok "h1", []⟩)) c6LgtmNmwFlags).1 rfl
